import Mathlib

/-!
# SkimNotesSync: the directory-size cache of `Watcher.c`

A shallow embedding of the routines of `Watcher.c` that keep track of the size of
the watched directory hierarchy (`dir_items`, the scanner `iterate_subdirs`, the
differ `check_children_of_dir`, the dispatcher `fsevents_callback` and the
persistence pair `save_dir_items` / `load_dir_items`), followed by theorems about
them.

Conventions of the embedding:

* a C string is a `String`, one `Char` per byte; `NULL` is `none`;
* the global array `dir_items[0 .. num_dir_items)` is a `List dir_item`, threaded
  through every routine; slots at and beyond `num_dir_items` are never read;
* `malloc`, `realloc` and `strdup` are taken to succeed;
* `off_t` sizes are unbounded integers (signed overflow is undefined in C); the
  `short int` fields wrap modulo `2^16`;
* the file system is a value of type `FileSys` that answers `opendir`, `lstat` and
  `stat`; it does not change while one routine runs;
* `execute_for_path` (the per-file hook) is left out: it does not touch `dir_items`;
* the recursion of `iterate_subdirs` is bounded by a budget; `none` means that the
  budget ran out (or, in `check_children_of_dir`, that `readdir` was handed the
  `NULL` stream of a failed `opendir`).
-/

namespace Watcher

/-! ## libc -/

/-- The libc function strcmp on lists of bytes. C fixes only the sign of the result:
it is that of the first pair of bytes that differ, a string that ends first being
the smaller one. -/
def strcmpL : List Char → List Char → Int
  | [], [] => 0
  | [], _ :: _ => -1
  | _ :: _, [] => 1
  | a :: as, b :: bs => if a = b then strcmpL as bs else if a.toNat < b.toNat then -1 else 1

/-- The libc function strcmp. -/
def strcmp (a b : String) : Int := strcmpL a.data b.data

/-- The constant PATH_MAX of the system headers. -/
def PATH_MAX : Nat := 1024

/-- The constant MAXPATHLEN of the system headers. -/
def MAXPATHLEN : Nat := 1024

/-- The constant ENOENT of the system headers. -/
def ENOENT : Int := 2

/-- The call `snprintf(fullpath, n, "%s/%s", dirname, d_name)`: the joined path, cut
to the `n - 1` bytes that fit in front of the terminator. -/
def snprintf_path (n : Nat) (dirname d_name : String) : String :=
  ⟨(dirname.data ++ '/' :: d_name.data).take (n - 1)⟩

/-- Conversion of an `int` to `short int`. -/
def to_short (d : Int) : Int := (d + 32768) % 65536 - 32768

/-- Insertion of one element in front of the first element that does not compare
below it. -/
def qsort_insert {α : Type} (cmp : α → α → Int) (x : α) : List α → List α
  | [] => [x]
  | y :: ys => if cmp x y ≤ 0 then x :: y :: ys else y :: qsort_insert cmp x ys

/-- The libc function qsort, as a stable insertion sort (C leaves the order of
elements that compare equal open). -/
def qsort {α : Type} (cmp : α → α → Int) : List α → List α
  | [] => []
  | x :: xs => qsort_insert cmp x (qsort cmp xs)

/-! ## The file system -/

/-- What `lstat` reports about a path: `st_size` and `S_ISDIR(st_mode)`. -/
structure Stat where
  st_size : Int
  is_dir : Bool
deriving DecidableEq, Repr

/-- Result of `opendir`: failure with `errno == ENOENT`, failure with another
`errno`, or a stream whose `readdir` yields the given `d_name`s in order. -/
inductive OpenResult where
  | enoent
  | eother
  | ok (names : List String)
deriving DecidableEq, Repr

/-- The file system as the routines see it. -/
structure FileSys where
  opendir : String → OpenResult
  lstat : String → Option Stat
  stat : String → Option Stat

/-! ## The item store -/

/-- The C struct dir_item. -/
structure dir_item where
  dirname : Option String
  depth : Int
  state : Int
  size : Int
deriving DecidableEq, Repr

/-- The entries `dir_items[0 .. num_dir_items)`. -/
abbrev Store := List dir_item

/-- The test `dir_items[i].dirname != NULL && strcmp(name, dir_items[i].dirname) == 0`. -/
def names_item (name : String) (it : dir_item) : Bool :=
  match it.dirname with
  | none => false
  | some d => strcmp name d == 0

/-- The comparator handed to qsort: tombstones last, live entries by strcmp. -/
def compare_dir_items (a b : dir_item) : Int :=
  match a.dirname, b.dirname with
  | none, none => 0
  | none, some _ => 1
  | some _, none => -1
  | some x, some y => strcmp x y

/-- Appends an entry (realloc is taken to succeed, so the result is always 0). -/
def add_dir_item (st : Store) (name : String) (size depth : Int) : Store :=
  st ++ [⟨some name, to_short depth, 0, size⟩]

/-- Frees every name and sets `num_dir_items = 0`. -/
def discard_all_dir_items (_st : Store) : Store := []

/-- Overwrites the size of the first live entry called `name`; returns 0, or ENOENT
when there is none. -/
def update_dir_item : Store → String → Int → Store × Int
  | [], _, _ => ([], ENOENT)
  | it :: rest, name, size =>
    if names_item name it then ({ it with size := size } :: rest, 0)
    else ((update_dir_item rest name size).1.cons it, (update_dir_item rest name size).2)

/-- Number of tombstones, the amount by which the final loop of `cleanup_dir_items`
lowers `num_dir_items`. -/
def count_dead (st : Store) : Nat := st.countP (fun it => it.dirname.isNone)

/-- Sorts the entries and lowers `num_dir_items` once per tombstone. -/
def cleanup_dir_items (st : Store) : Store :=
  (qsort compare_dir_items st).take ((qsort compare_dir_items st).length
    - count_dead (qsort compare_dir_items st))

/-- The tombstone left in the place of a removed entry. -/
def tombstone (it : dir_item) : dir_item := { it with dirname := none, size := 0 }

/-- The second loop of `remove_dir_and_children`, started at the entry found:
it stops at the first entry whose depth is at most `start_depth`. -/
def remove_loop (start_depth : Int) : Store → Store
  | [] => []
  | it :: rest =>
    if it.depth ≤ start_depth then it :: rest
    else tombstone it :: remove_loop start_depth rest

/-- Index of the first live entry called `name`, or the length of the store. -/
def find_dir_item : Store → String → Nat
  | [], _ => 0
  | it :: rest, name => if names_item name it then 0 else find_dir_item rest name + 1

/-- Removal of the entry called `name` and of its children, followed by a cleanup.
Returns ENOENT (and leaves the store alone) when there is no such entry. -/
def remove_dir_and_children (st : Store) (name : String) : Store × Int :=
  match st.drop (find_dir_item st name) with
  | [] => (st, ENOENT)
  | it :: rest =>
    (cleanup_dir_items (st.take (find_dir_item st name) ++ remove_loop it.depth (it :: rest)), 0)

/-- True (1 in C) unless a live entry called `name` with a nonzero size exists. -/
def dir_does_not_exist : Store → String → Bool
  | [], _ => true
  | it :: rest, name =>
    if names_item name it && it.size != 0 then false else dir_does_not_exist rest name

/-- Depth of the first live entry called `name`, 0 when there is none. -/
def get_dir_depth : Store → String → Int
  | [], _ => 0
  | it :: rest, name => if names_item name it then it.depth else get_dir_depth rest name

/-- Sum of the sizes of the live entries. -/
def get_total_size : Store → Int
  | [] => 0
  | it :: rest => (if it.dirname.isSome then it.size else 0) + get_total_size rest

/-! ## The scanner -/

/-- The test that skips the self and parent entries of a directory stream. -/
def is_dot (d_name : String) : Bool := strcmp d_name "." == 0 || strcmp d_name ".." == 0

/-- The `readdir` loop of `iterate_subdirs` over the remaining `d_name`s, with the
store and the running `size`; `recurse` is the recursive call
`iterate_subdirs(fullpath, add, 1, depth+1)`, whose return value the loop only
prints. An entry whose `lstat` fails is skipped. -/
def scan_entries (fs : FileSys) (recurse : String → Store → Option Store)
    (dirname : String) (recursive : Bool) : List String → Store → Int → Option (Store × Int)
  | [], st, size => some (st, size)
  | d_name :: rest, st, size =>
    if is_dot d_name then scan_entries fs recurse dirname recursive rest st size
    else
      match fs.lstat (snprintf_path PATH_MAX dirname d_name) with
      | none => scan_entries fs recurse dirname recursive rest st size
      | some s =>
        if s.is_dir && (recursive || dir_does_not_exist st (snprintf_path PATH_MAX dirname d_name)) then
          match recurse (snprintf_path PATH_MAX dirname d_name) st with
          | none => none
          | some st2 => scan_entries fs recurse dirname recursive rest st2 (size + s.st_size)
        else scan_entries fs recurse dirname recursive rest st (size + s.st_size)

/-- The scanner. The first argument bounds the depth of the recursion. The result
is the store and the value returned: the size of the directory, 0 when it is gone,
-1 when it cannot be opened. -/
def iterate_subdirs (fs : FileSys) :
    Nat → String → Bool → Bool → Int → Store → Option (Store × Int)
  | 0, _, _, _, _, _ => none
  | fuel + 1, dirname, add, recursive, depth, st =>
    let st1 := if add then add_dir_item st dirname 0 depth else st
    let depth1 := if depth = 0 then get_dir_depth st1 dirname else depth
    match fs.opendir dirname with
    | .enoent => some ((update_dir_item st1 dirname 0).1, 0)
    | .eother => some (st1, -1)
    | .ok names =>
      match scan_entries fs
          (fun p s => (iterate_subdirs fs fuel p add true (depth1 + 1) s).map Prod.fst)
          dirname recursive names st1 0 with
      | none => none
      | some r =>
        if (update_dir_item r.1 dirname r.2).2 = ENOENT then
          some (add_dir_item r.1 dirname r.2 depth1, r.2)
        else some ((update_dir_item r.1 dirname r.2).1, r.2)

/-- The scan followed by the sort of the whole store. -/
def scan_directory (fs : FileSys) (fuel : Nat) (dirname : String) (add recursive : Bool)
    (depth : Int) (st : Store) : Option Store :=
  (iterate_subdirs fs fuel dirname add recursive depth st).map
    (fun r => qsort compare_dir_items r.1)

/-! ## The differ -/

/-- Number of entries, from the front, whose depth exceeds `current_depth`: applied
to the entries after `start_idx` it gives `end_idx - start_idx - 1`. -/
def run_length (current_depth : Int) : Store → Nat
  | [] => 0
  | it :: rest => if it.depth ≤ current_depth then 0 else run_length current_depth rest + 1

/-- The search of the window `[start_idx, end_idx)` for a live entry at depth
`current_depth + 1` called `fullpath`: the first one gets `state = 1`. The flag
tells whether one was found (`i < end_idx` after the loop). -/
def mark_seen (current_depth : Int) (fullpath : String) : List dir_item → List dir_item × Bool
  | [] => ([], false)
  | it :: rest =>
    match it.dirname with
    | none => ((mark_seen current_depth fullpath rest).1.cons it,
               (mark_seen current_depth fullpath rest).2)
    | some d =>
      if it.depth = current_depth + 1 ∧ strcmp d fullpath = 0 then
        ({ it with state := 1 } :: rest, true)
      else ((mark_seen current_depth fullpath rest).1.cons it,
            (mark_seen current_depth fullpath rest).2)

/-- The window `[start_idx, end_idx)` of the store. -/
def window (st : Store) (start_idx end_idx : Nat) : List dir_item :=
  (st.drop start_idx).take (end_idx - start_idx)

/-- The store with its window `[start_idx, end_idx)` replaced. -/
def set_window (st : Store) (start_idx end_idx : Nat) (w : List dir_item) : Store :=
  st.take start_idx ++ w ++ st.drop end_idx

/-- The `readdir` loop of `check_children_of_dir`: marks the known children, scans
the directories that are not in the window, and adds up `dir_size`. -/
def diff_entries (fs : FileSys) (fuel : Nat) (dirname : String) (current_depth : Int)
    (start_idx end_idx : Nat) : List String → Store → Int → Option (Store × Int)
  | [], st, dir_size => some (st, dir_size)
  | d_name :: rest, st, dir_size =>
    if is_dot d_name then
      diff_entries fs fuel dirname current_depth start_idx end_idx rest st dir_size
    else
      let fullpath := snprintf_path MAXPATHLEN dirname d_name
      let m := mark_seen current_depth fullpath (window st start_idx end_idx)
      let st1 := set_window st start_idx end_idx m.1
      match fs.lstat fullpath with
      | none => diff_entries fs fuel dirname current_depth start_idx end_idx rest st1 dir_size
      | some s =>
        if s.is_dir && !m.2 then
          match iterate_subdirs fs fuel fullpath true true (current_depth + 1) st1 with
          | none => none
          | some r =>
            diff_entries fs fuel dirname current_depth start_idx end_idx rest r.1
              (dir_size + s.st_size)
        else
          diff_entries fs fuel dirname current_depth start_idx end_idx rest st1
            (dir_size + s.st_size)

/-- The final pass of `check_children_of_dir` over the window. An entry at depth
`current_depth + 1` that is live and was not seen is turned into a tombstone, and so
is the run of deeper entries after it (`killing` is true inside such a run, the
inner loop over `j`); any other entry at that depth gets `state = 0`. -/
def sweep (current_depth : Int) : Bool → List dir_item → List dir_item
  | _, [] => []
  | killing, it :: rest =>
    if killing ∧ ¬ it.depth ≤ current_depth + 1 then
      (if it.dirname.isSome then tombstone it else it) :: sweep current_depth true rest
    else if it.depth = current_depth + 1 then
      if it.dirname.isSome ∧ it.state = 0 then
        tombstone it :: sweep current_depth true rest
      else { it with state := 0 } :: sweep current_depth false rest
    else it :: sweep current_depth false rest

/-- The assignment `dir_items[start_idx].size = dir_size`. -/
def set_size_at (st : Store) (start_idx : Nat) (dir_size : Int) : Store :=
  match st.drop start_idx with
  | [] => st
  | x :: xs => st.take start_idx ++ { x with size := dir_size } :: xs

/-- The differ. Returns -1 when `dirname` has no live entry, 0 otherwise. When the
directory is gone the sizes in its window are zeroed and nothing else is done. -/
def check_children_of_dir (fs : FileSys) (fuel : Nat) (st : Store) (dirname : String) :
    Option (Store × Int) :=
  let start_idx := find_dir_item st dirname
  match st.drop start_idx with
  | [] => some (st, -1)
  | it :: after =>
    let current_depth := it.depth
    let end_idx := start_idx + 1 + run_length current_depth after
    match fs.opendir dirname with
    | .enoent =>
      some (set_window st start_idx end_idx
        ((window st start_idx end_idx).map (fun x => { x with size := 0 })), 0)
    | .eother => none
    | .ok names =>
      match diff_entries fs fuel dirname current_depth start_idx end_idx names st 0 with
      | none => none
      | some r =>
        let st2 := set_size_at r.1 start_idx r.2
        some (cleanup_dir_items (set_window st2 start_idx end_idx
          (sweep current_depth false (window st2 start_idx end_idx))), 0)

/-! ## The dispatcher -/

/-- The flag kFSEventStreamEventFlagMustScanSubDirs of the FSEvents header. -/
def kFSEventStreamEventFlagMustScanSubDirs : Nat := 0x1
/-- The flag kFSEventStreamEventFlagUserDropped of the FSEvents header. -/
def kFSEventStreamEventFlagUserDropped : Nat := 0x2
/-- The flag kFSEventStreamEventFlagKernelDropped of the FSEvents header. -/
def kFSEventStreamEventFlagKernelDropped : Nat := 0x4
/-- The flag kFSEventStreamEventFlagHistoryDone of the FSEvents header. -/
def kFSEventStreamEventFlagHistoryDone : Nat := 0x10
/-- The flag kFSEventStreamEventFlagRootChanged of the FSEvents header. -/
def kFSEventStreamEventFlagRootChanged : Nat := 0x20

/-- The copy of the event path into `path_buff`, a trailing slash chopped off. -/
def chop_slash (path : String) : String :=
  if path.data.getLast? = some '/' then ⟨path.data.dropLast⟩ else path

/-- The call `strlcpy(path_buff, full_path, sizeof(path_buff))`. -/
def strlcpy_path (full_path : String) : String := ⟨full_path.data.take (PATH_MAX - 1)⟩

/-- What the flag tests of one round of the event loop decide: to go on to the next
event, to throw the state away and go on, or to update the state for `path_buff`. -/
inductive Decision where
  | skip
  | discard
  | update (recursive : Bool) (path_buff : String)
deriving DecidableEq, Repr

/-- The flag tests of `fsevents_callback` for one event. -/
def classify (fs : FileSys) (full_path path : String) (flags : Nat) : Decision :=
  if flags &&& kFSEventStreamEventFlagHistoryDone ≠ 0 then .skip
  else if flags &&& kFSEventStreamEventFlagRootChanged ≠ 0 then
    match fs.stat full_path with
    | some _ => .update true (chop_slash path)
    | none => .discard
  else if flags &&& kFSEventStreamEventFlagMustScanSubDirs ≠ 0 then
    if flags &&& kFSEventStreamEventFlagUserDropped ≠ 0 then
      .update true (strlcpy_path full_path)
    else if flags &&& kFSEventStreamEventFlagKernelDropped ≠ 0 then
      .update true (strlcpy_path full_path)
    else .update true (chop_slash path)
  else .update false (chop_slash path)

/-- One round of the event loop of `fsevents_callback`. -/
def fsevents_event (fs : FileSys) (fuel : Nat) (full_path path : String) (flags : Nat)
    (st : Store) : Option Store :=
  match classify fs full_path path flags with
  | .skip => some st
  | .discard => some (discard_all_dir_items st)
  | .update true path_buff =>
    scan_directory fs fuel path_buff true true 0 (remove_dir_and_children st path_buff).1
  | .update false path_buff => (check_children_of_dir fs fuel st path_buff).map Prod.fst

/-- The event loop of `fsevents_callback` over the events `(eventPaths[i], eventFlags[i])`. -/
def fsevents_callback (fs : FileSys) (fuel : Nat) (full_path : String) :
    List (String × Nat) → Store → Option Store
  | [], st => some st
  | ev :: rest, st =>
    match fsevents_event fs fuel full_path ev.1 ev.2 st with
    | none => none
    | some st1 => fsevents_callback fs fuel full_path rest st1

/-! ## Persistence -/

/-- Decimal digits of a natural number, most significant first; the first argument
bounds the number of digits. -/
def put_digits : Nat → Nat → List Char → List Char
  | 0, _, acc => acc
  | k + 1, n, acc =>
    if n < 10 then Char.ofNat (48 + n) :: acc
    else put_digits k (n / 10) (Char.ofNat (48 + n % 10) :: acc)

/-- The conversions `%d` and `%lld` of fprintf. -/
def put_int (n : Int) : List Char :=
  if n < 0 then '-' :: put_digits (n.natAbs + 1) n.natAbs []
  else put_digits (n.natAbs + 1) n.natAbs []

/-- The line `fprintf(fp, "%d %lld %s\n", depth, size, dirname)`. -/
def fprintf_item (depth size : Int) (dirname : String) : List Char :=
  put_int depth ++ ' ' :: put_int size ++ ' ' :: dirname.data ++ ['\n']

/-- The text that `save_dir_items` writes (fopen is taken to succeed): one line per
live entry. -/
def save_dir_items : Store → List Char
  | [] => []
  | it :: rest =>
    match it.dirname with
    | none => save_dir_items rest
    | some d => fprintf_item it.depth it.size d ++ save_dir_items rest

/-- The libc function isspace in the C locale. -/
def isspace (c : Char) : Bool :=
  c = ' ' || c = '\t' || c = '\n' || c = '\x0b' || c = '\x0c' || c = '\r'

/-- The value of a run of decimal digits read after `acc`. -/
def get_digits : List Char → Nat → Nat × List Char
  | [], acc => (acc, [])
  | c :: cs, acc =>
    if c.isDigit then get_digits cs (10 * acc + (c.toNat - 48)) else (acc, c :: cs)

/-- The conversions `%d` and `%lld` of fscanf: white space is skipped, then an
optional sign and at least one digit are read. -/
def scan_int (input : List Char) : Option (Int × List Char) :=
  match input.dropWhile isspace with
  | [] => none
  | '-' :: c :: cs =>
    if c.isDigit then some (- ((get_digits (c :: cs) 0).1 : Int), (get_digits (c :: cs) 0).2)
    else none
  | '+' :: c :: cs =>
    if c.isDigit then some (((get_digits (c :: cs) 0).1 : Int), (get_digits (c :: cs) 0).2)
    else none
  | c :: cs =>
    if c.isDigit then some (((get_digits (c :: cs) 0).1 : Int), (get_digits (c :: cs) 0).2)
    else none

/-- The conversion `%s` of fscanf: white space is skipped, then the bytes up to the
next white space are read; it fails at the end of the input. -/
def scan_word (input : List Char) : Option (String × List Char) :=
  match input.dropWhile isspace with
  | [] => none
  | c :: cs => some (⟨(c :: cs).takeWhile (fun x => !isspace x)⟩,
                     (c :: cs).dropWhile (fun x => !isspace x))

/-- The call `fscanf(fp, "%d %lld %s\n", &depth, &size, buff)` when it returns 3:
the three values and the rest of the input, the white space after the word consumed
by the directive that ends the format. It is `none` when fewer than three
conversions succeed. -/
def fscanf_item (input : List Char) : Option ((Int × Int × String) × List Char) :=
  match scan_int input with
  | none => none
  | some (depth, r1) =>
    match scan_int r1 with
    | none => none
    | some (size, r2) =>
      match scan_word r2 with
      | none => none
      | some (buff, r3) => some ((depth, size, buff), r3.dropWhile isspace)

/-- The loop `while (fscanf(...) == 3) add_dir_item(buff, size, depth)`; every round
consumes input, so as many rounds as the input has bytes are enough. -/
def load_loop : Nat → List Char → Store → Store
  | 0, _, st => st
  | k + 1, input, st =>
    match fscanf_item input with
    | none => st
    | some (v, rest) => load_loop k rest (add_dir_item st v.2.2 v.2.1 v.1)

/-- The store after `load_dir_items` has read the given text (fopen is taken to
succeed). -/
def load_dir_items (text : List Char) (st : Store) : Store :=
  load_loop text.length text st

/-! ## Directory trees -/

/-- A finite directory tree: a file with its reported size, or a directory with its
reported size and its entries by name. -/
inductive FTree where
  | file (st_size : Int)
  | dir (st_size : Int) (entries : List (String × FTree))
deriving Repr

/-- What `lstat` reports about the root of a tree. -/
def FTree.stat : FTree → Stat
  | .file s => ⟨s, false⟩
  | .dir s _ => ⟨s, true⟩

/-- The path of the entry `d_name` of the directory `dirname`. -/
def child_path (dirname d_name : String) : String := ⟨dirname.data ++ '/' :: d_name.data⟩

/-- Sum of the reported sizes of the entries of one directory. -/
def entries_size : List (String × FTree) → Int
  | [] => 0
  | e :: rest => e.2.stat.st_size + entries_size rest

mutual
/-- Levels of directories in a tree: 0 for a file, 1 for a directory without
subdirectories. -/
def FTree.height : FTree → Nat
  | .file _ => 0
  | .dir _ es => FTree.heightL es + 1
/-- Largest height among the entries of a directory. -/
def FTree.heightL : List (String × FTree) → Nat
  | [] => 0
  | e :: rest => max (FTree.height e.2) (FTree.heightL rest)
end

mutual
/-- The nodes of the tree rooted at `path`, each with its path, the root first. -/
def FTree.nodes : String → FTree → List (String × FTree)
  | path, .file s => [(path, .file s)]
  | path, .dir s es => (path, .dir s es) :: FTree.nodesL path es
/-- The nodes below the entries of the directory `path`. -/
def FTree.nodesL : String → List (String × FTree) → List (String × FTree)
  | _, [] => []
  | path, e :: rest => FTree.nodes (child_path path e.1) e.2 ++ FTree.nodesL path rest
end

/-- First node stored under `path`. -/
def lookup_node (path : String) : List (String × FTree) → Option FTree
  | [] => none
  | e :: rest => if e.1 = path then some e.2 else lookup_node path rest

/-- The file system that holds the tree `t` at `root` and nothing else: a directory
stream yields the self and parent entries and then the entries of the directory;
opening a file fails with an error other than ENOENT. -/
def tree_fs (root : String) (t : FTree) : FileSys where
  opendir path :=
    match lookup_node path (FTree.nodes root t) with
    | none => .enoent
    | some (.file _) => .eother
    | some (.dir _ es) => .ok ("." :: ".." :: es.map Prod.fst)
  lstat path := (lookup_node path (FTree.nodes root t)).map FTree.stat
  stat path := (lookup_node path (FTree.nodes root t)).map FTree.stat

mutual
/-- One store entry per directory of the tree rooted at `path`, in the order of a
walk that visits a directory before its entries: its depth, and as size the sum of
the reported sizes of the entries directly inside it. -/
def FTree.items : String → Int → FTree → List dir_item
  | _, _, .file _ => []
  | path, depth, .dir _ es =>
    ⟨some path, depth, 0, entries_size es⟩ :: FTree.itemsL path depth es
/-- The store entries of the directories below the entries of `path`. -/
def FTree.itemsL : String → Int → List (String × FTree) → List dir_item
  | _, _, [] => []
  | path, depth, e :: rest =>
    FTree.items (child_path path e.1) (depth + 1) e.2 ++ FTree.itemsL path depth rest
end

mutual
/-- Sum of the reported sizes of every entry strictly below the root of a tree. -/
def FTree.size_below : FTree → Int
  | .file _ => 0
  | .dir _ es => FTree.size_belowL es
/-- Sum of the reported sizes of the given entries and of everything below them. -/
def FTree.size_belowL : List (String × FTree) → Int
  | [] => 0
  | e :: rest => e.2.stat.st_size + FTree.size_below e.2 + FTree.size_belowL rest
end

/-- A file name: no slash in it, and neither of the two pseudo entries. -/
def valid_name (n : String) : Bool := !n.data.contains '/' && !is_dot n

mutual
/-- Well-formed trees: in every directory the names are valid and pairwise
different. -/
def FTree.wf : FTree → Bool
  | .file _ => true
  | .dir _ es => FTree.wfL es && (es.map Prod.fst).Nodup
/-- Well-formed entries: valid names, well-formed trees. -/
def FTree.wfL : List (String × FTree) → Bool
  | [] => true
  | e :: rest => valid_name e.1 && FTree.wf e.2 && FTree.wfL rest
end

mutual
/-- The paths that the scan of the tree at `path` builds with snprintf fit in
PATH_MAX bytes: nothing is cut. -/
def FTree.fits : String → FTree → Bool
  | _, .file _ => true
  | path, .dir _ es => FTree.fitsL path es
/-- The paths of the given entries of `path`, and those below them, fit. -/
def FTree.fitsL : String → List (String × FTree) → Bool
  | _, [] => true
  | path, e :: rest =>
    decide ((child_path path e.1).length < PATH_MAX) && FTree.fits (child_path path e.1) e.2
      && FTree.fitsL path rest
end

mutual
/-- The file system shows the tree `t` at `path`: every directory of `t` opens, its
stream yields, besides the self and parent entries, the names of its entries in
order, and `lstat` reports every entry as the tree has it. -/
def presents (fs : FileSys) : String → FTree → Bool
  | _, .file _ => true
  | path, .dir _ es =>
    (match fs.opendir path with
      | .ok names => decide (names.filter (fun n => !is_dot n) = es.map Prod.fst)
      | _ => false) && presentsL fs path es
/-- The file system shows the given entries of the directory `path`. -/
def presentsL (fs : FileSys) : String → List (String × FTree) → Bool
  | _, [] => true
  | path, e :: rest =>
    decide (fs.lstat (child_path path e.1) = some e.2.stat)
      && presents fs (child_path path e.1) e.2 && presentsL fs path rest
end

/-! ## Predicates and fixtures of the theorems -/

/-- The path `q` is `d` itself or lies below `d`. -/
def inside (d q : String) : Prop :=
  ∃ r : List Char, q.data = d.data ++ r ∧ (r = [] ∨ ∃ r', r = '/' :: r')

/-- No live entry of the store is called `d` or has a path below `d`. -/
def clear_of (d : String) (st : Store) : Prop :=
  ∀ it ∈ st, ∀ q, it.dirname = some q → ¬ inside d q

/-- The first list is an initial segment of the second. -/
def starts_with : List Char → List Char → Bool
  | [], _ => true
  | _ :: _, [] => false
  | a :: as, b :: bs => decide (a = b) && starts_with as bs

/-- The entry is live and its path lies strictly below the directory `d`. -/
def is_below (d : String) (it : dir_item) : Bool :=
  match it.dirname with
  | none => false
  | some q => starts_with (d.data ++ ['/']) q.data

/-- The entries that follow the entry at index `i` for as long as their depth
exceeds its depth: the run that the routines take for its subtree. -/
def subtree_run (st : Store) (i : Nat) : List dir_item :=
  match st.drop i with
  | [] => []
  | it :: after => after.take (run_length it.depth after)

/-- The tree of the scenario: `a.txt` of 100 bytes and the directory `sub` with
`b.txt` of 50 bytes, directories reporting size 0. -/
def scenario_tree : FTree :=
  .dir 0 [("a.txt", .file 100), ("sub", .dir 0 [("b.txt", .file 50)])]

/-- A tree in which the name of one directory, `a.old`, extends the name of its
sibling `a` by a byte below the slash; `a` holds the directory `b` with a file of
10 bytes. -/
def sibling_tree : FTree :=
  .dir 0 [("a", .dir 0 [("b", .dir 0 [("f", .file 10)])]), ("a.old", .dir 0 [])]

/-- The tree `sibling_tree` after a file of 7 bytes was created in `a.old`. -/
def sibling_tree_file : FTree :=
  .dir 0 [("a", .dir 0 [("b", .dir 0 [("f", .file 10)])]), ("a.old", .dir 0 [("x", .file 7)])]

/-- The tree `sibling_tree` after the directory `a` was removed with all it holds. -/
def sibling_tree_less : FTree :=
  .dir 0 [("a.old", .dir 0 [])]

/-- The tree `sibling_tree` after the directory `n`, holding a file of 30 bytes, was
created in `a.old`. -/
def sibling_tree_more : FTree :=
  .dir 0 [("a", .dir 0 [("b", .dir 0 [("f", .file 10)])]),
          ("a.old", .dir 0 [("n", .dir 0 [("c.txt", .file 30)])])]

/-- A file system in which every `opendir` fails with an error other than ENOENT
(as for directories that may not be read), while `lstat` and `stat` report a
directory. -/
def locked_fs : FileSys where
  opendir _ := .eother
  lstat _ := some ⟨0, true⟩
  stat _ := some ⟨0, true⟩

/-- Number of path components by which `path` extends `root`: the separators in
what follows the first `root.length` bytes of `path`. -/
def extra_components (root path : String) : Nat :=
  ((path.data.drop root.data.length).filter (fun c => c = '/')).length

/-- The entry is live. -/
def is_live (it : dir_item) : Bool := it.dirname.isSome

/-- The order of the paths of two entries: when both are live, the first path does
not compare above the second by strcmp. -/
def path_le (a b : dir_item) : Prop :=
  ∀ x y, a.dirname = some x → b.dirname = some y → strcmp x y ≤ 0

/-! ## Strings and paths -/

theorem strcmpL_eq_zero : ∀ a b : List Char, strcmpL a b = 0 ↔ a = b
  | [], [] => by simp [strcmpL]
  | [], _ :: _ => by simp [strcmpL]
  | _ :: _, [] => by simp [strcmpL]
  | a :: as, b :: bs => by
    by_cases h : a = b
    · simp [strcmpL, h, strcmpL_eq_zero as bs]
    · by_cases h2 : a.toNat < b.toNat <;> simp [strcmpL, h, h2]

theorem strcmp_eq_zero (a b : String) : strcmp a b = 0 ↔ a = b := by
  cases a; cases b
  simp only [strcmp, strcmpL_eq_zero]
  constructor
  · intro h; rw [h]
  · intro h; injection h

theorem names_item_iff (name : String) (it : dir_item) :
    names_item name it = true ↔ it.dirname = some name := by
  unfold names_item
  cases h : it.dirname with
  | none => simp
  | some d =>
    simp only [beq_iff_eq, strcmp_eq_zero, Option.some.injEq]
    exact eq_comm

theorem inside_self (d : String) : inside d d := ⟨[], by simp, Or.inl rfl⟩

theorem inside_child (d n q : String) (h : inside (child_path d n) q) : inside d q := by
  obtain ⟨r, hr, _⟩ := h
  exact ⟨'/' :: n.data ++ r, by simp [hr, child_path], Or.inr ⟨_, rfl⟩⟩

theorem not_inside_child_self (d n : String) : ¬ inside (child_path d n) d := by
  rintro ⟨r, hr, _⟩
  have := congrArg List.length hr
  simp [child_path] at this

theorem slash_split : ∀ (n m r1 r2 : List Char), '/' ∉ n → '/' ∉ m →
    (r1 = [] ∨ ∃ r', r1 = '/' :: r') → (r2 = [] ∨ ∃ r', r2 = '/' :: r') →
    n ++ r1 = m ++ r2 → n = m
  | [], [], _, _, _, _, _, _, _ => rfl
  | [], c :: m, r1, r2, _, hm, h1, _, h => by
    rcases h1 with rfl | ⟨r', rfl⟩
    · simp at h
    · simp at h
      simp [← h.1] at hm
  | c :: n, [], r1, r2, hn, _, _, h2, h => by
    rcases h2 with rfl | ⟨r', rfl⟩
    · simp at h
    · simp at h
      simp [h.1] at hn
  | c :: n, e :: m, r1, r2, hn, hm, h1, h2, h => by
    simp at h
    simp at hn hm
    rw [h.1, slash_split n m r1 r2 (by tauto) (by tauto) h1 h2 h.2]

theorem inside_children_eq (d n m q : String) (hn : '/' ∉ n.data) (hm : '/' ∉ m.data)
    (h1 : inside (child_path d n) q) (h2 : inside (child_path d m) q) : n = m := by
  obtain ⟨r1, e1, c1⟩ := h1
  obtain ⟨r2, e2, c2⟩ := h2
  rw [e1] at e2
  simp [child_path] at e2
  have := slash_split n.data m.data r1 r2 hn hm c1 c2 e2
  cases n; cases m; simp_all

theorem snprintf_path_eq (d n : String) (h : (child_path d n).length < PATH_MAX) :
    snprintf_path PATH_MAX d n = child_path d n := by
  have h2 : (d.data ++ '/' :: n.data).length < PATH_MAX := h
  unfold snprintf_path child_path
  congr 1
  exact List.take_of_length_le (Nat.le_sub_one_of_lt h2)

theorem to_short_eq (d : Int) (h0 : 0 ≤ d) (h1 : d < 32768) : to_short d = d := by
  unfold to_short
  omega

theorem valid_name_no_slash (n : String) (h : valid_name n = true) : '/' ∉ n.data := by
  simp [valid_name] at h
  exact h.1

/-! ## Trees, entry by entry -/

theorem wfL_cons (e : String × FTree) (rest : List (String × FTree)) :
    FTree.wfL (e :: rest) = (valid_name e.1 && FTree.wf e.2 && FTree.wfL rest) := by
  simp [FTree.wfL]

theorem fitsL_cons (path : String) (e : String × FTree) (rest : List (String × FTree)) :
    FTree.fitsL path (e :: rest) =
      (decide ((child_path path e.1).length < PATH_MAX) && FTree.fits (child_path path e.1) e.2
        && FTree.fitsL path rest) := by
  simp [FTree.fitsL]

theorem presentsL_cons (fs : FileSys) (path : String) (e : String × FTree)
    (rest : List (String × FTree)) :
    presentsL fs path (e :: rest) =
      (decide (fs.lstat (child_path path e.1) = some e.2.stat)
        && presents fs (child_path path e.1) e.2 && presentsL fs path rest) := by
  simp [presentsL]

theorem itemsL_cons (path : String) (depth : Int) (e : String × FTree)
    (rest : List (String × FTree)) :
    FTree.itemsL path depth (e :: rest) =
      FTree.items (child_path path e.1) (depth + 1) e.2 ++ FTree.itemsL path depth rest := by
  simp [FTree.itemsL]

theorem wfL_mem {es : List (String × FTree)} (h : FTree.wfL es = true) :
    ∀ e ∈ es, valid_name e.1 = true ∧ FTree.wf e.2 = true := by
  induction es with
  | nil => simp
  | cons x rest ih =>
    rw [wfL_cons] at h
    simp only [Bool.and_eq_true] at h
    intro e he
    rcases List.mem_cons.1 he with rfl | he
    · exact ⟨h.1.1, h.1.2⟩
    · exact ih h.2 e he

theorem fitsL_mem {path : String} {es : List (String × FTree)}
    (h : FTree.fitsL path es = true) :
    ∀ e ∈ es, (child_path path e.1).length < PATH_MAX ∧
      FTree.fits (child_path path e.1) e.2 = true := by
  induction es with
  | nil => simp
  | cons x rest ih =>
    rw [fitsL_cons] at h
    simp only [Bool.and_eq_true, decide_eq_true_eq] at h
    intro e he
    rcases List.mem_cons.1 he with rfl | he
    · exact ⟨h.1.1, h.1.2⟩
    · exact ih h.2 e he

theorem presentsL_mem {fs : FileSys} {path : String} {es : List (String × FTree)}
    (h : presentsL fs path es = true) :
    ∀ e ∈ es, fs.lstat (child_path path e.1) = some e.2.stat ∧
      presents fs (child_path path e.1) e.2 = true := by
  induction es with
  | nil => simp
  | cons x rest ih =>
    rw [presentsL_cons] at h
    simp only [Bool.and_eq_true, decide_eq_true_eq] at h
    intro e he
    rcases List.mem_cons.1 he with rfl | he
    · exact ⟨h.1.1, h.1.2⟩
    · exact ih h.2 e he

theorem heightL_mem {es : List (String × FTree)} :
    ∀ e ∈ es, FTree.height e.2 ≤ FTree.heightL es := by
  induction es with
  | nil => simp
  | cons x rest ih =>
    intro e he
    simp only [FTree.heightL]
    rcases List.mem_cons.1 he with rfl | he
    · exact le_max_left _ _
    · exact le_trans (ih e he) (le_max_right _ _)

mutual
theorem items_inside : ∀ (t : FTree) (path : String) (depth : Int),
    ∀ it ∈ t.items path depth, ∃ q, it.dirname = some q ∧ inside path q
  | .file _, _, _ => by simp [FTree.items]
  | .dir _ es, path, depth => by
    intro it hit
    simp only [FTree.items, List.mem_cons] at hit
    rcases hit with rfl | hit
    · exact ⟨path, rfl, inside_self path⟩
    · obtain ⟨q, hq, e, _, hin⟩ := itemsL_inside es path depth it hit
      exact ⟨q, hq, inside_child path e.1 q hin⟩
theorem itemsL_inside : ∀ (es : List (String × FTree)) (path : String) (depth : Int),
    ∀ it ∈ FTree.itemsL path depth es,
      ∃ q, it.dirname = some q ∧ ∃ e ∈ es, inside (child_path path e.1) q
  | [], _, _ => by simp [FTree.itemsL]
  | e :: rest, path, depth => by
    intro it hit
    rw [itemsL_cons, List.mem_append] at hit
    rcases hit with hit | hit
    · obtain ⟨q, hq, hin⟩ := items_inside e.2 (child_path path e.1) (depth + 1) it hit
      exact ⟨q, hq, e, by simp, hin⟩
    · obtain ⟨q, hq, e', he', hin⟩ := itemsL_inside rest path depth it hit
      exact ⟨q, hq, e', by simp [he'], hin⟩
end

/-! ## Store lemmas -/

theorem clear_of_not_named {d : String} {st : Store} (h : clear_of d st) :
    ∀ it ∈ st, names_item d it = false := by
  intro it hit
  cases hn : names_item d it with
  | false => rfl
  | true => exact absurd (inside_self d) (h it hit d ((names_item_iff d it).1 hn))

theorem clear_of_append {d : String} {a b : Store} (ha : clear_of d a) (hb : clear_of d b) :
    clear_of d (a ++ b) := by
  intro it hit
  rcases List.mem_append.1 hit with h | h
  · exact ha it h
  · exact hb it h

theorem clear_of_child {d : String} {st : Store} (n : String) (h : clear_of d st) :
    clear_of (child_path d n) st :=
  fun it hit q hq hin => h it hit q hq (inside_child d n q hin)

theorem update_dir_item_append (S : Store) (it : dir_item) (T : Store) (name : String)
    (size : Int) (hS : ∀ x ∈ S, names_item name x = false) (hit : names_item name it = true) :
    update_dir_item (S ++ it :: T) name size = (S ++ { it with size := size } :: T, 0) := by
  induction S with
  | nil => simp [update_dir_item, hit]
  | cons x S ih =>
    have hx := hS x (by simp)
    have := ih (fun y hy => hS y (by simp [hy]))
    simp [update_dir_item, hx, this]

theorem get_dir_depth_append (S : Store) (it : dir_item) (T : Store) (name : String)
    (hS : ∀ x ∈ S, names_item name x = false) (hit : names_item name it = true) :
    get_dir_depth (S ++ it :: T) name = it.depth := by
  induction S with
  | nil => simp [get_dir_depth, hit]
  | cons x S ih =>
    have hx := hS x (by simp)
    have := ih (fun y hy => hS y (by simp [hy]))
    simp [get_dir_depth, hx, this]

theorem get_total_size_append (a b : Store) :
    get_total_size (a ++ b) = get_total_size a + get_total_size b := by
  induction a with
  | nil => simp [get_total_size]
  | cons x a ih => simp [get_total_size, ih, add_assoc]

/-! ## The scan of a tree -/

theorem scan_entries_tree (fs : FileSys) (recurse : String → Store → Option Store)
    (path : String) (depth : Int) :
    ∀ (names : List String) (es : List (String × FTree)) (st : Store) (size : Int),
      names.filter (fun n => !is_dot n) = es.map Prod.fst →
      FTree.wfL es = true → (es.map Prod.fst).Nodup →
      FTree.fitsL path es = true → presentsL fs path es = true →
      (∀ e ∈ es, clear_of (child_path path e.1) st) →
      (∀ e ∈ es, ∀ st', clear_of (child_path path e.1) st' → e.2.stat.is_dir = true →
        recurse (child_path path e.1) st'
          = some (st' ++ e.2.items (child_path path e.1) (depth + 1))) →
      scan_entries fs recurse path true names st size
        = some (st ++ FTree.itemsL path depth es, size + entries_size es) := by
  intro names
  induction names with
  | nil =>
    intro es st size hn _ _ _ _ _ _
    cases es with
    | nil => simp [scan_entries, FTree.itemsL, entries_size]
    | cons e rest => simp at hn
  | cons d_name names ih =>
    intro es st size hn hwf hnd hfit hpres hclear hrec
    by_cases hdot : is_dot d_name = true
    · rw [List.filter_cons_of_neg (by simp [hdot])] at hn
      simp only [scan_entries, hdot, if_true]
      exact ih es st size hn hwf hnd hfit hpres hclear hrec
    · rw [List.filter_cons_of_pos (by simpa using hdot)] at hn
      cases es with
      | nil => simp at hn
      | cons e rest =>
        simp only [List.map_cons, List.cons.injEq] at hn
        obtain ⟨hname, hn⟩ := hn
        rw [wfL_cons] at hwf
        rw [fitsL_cons] at hfit
        rw [presentsL_cons] at hpres
        simp only [Bool.and_eq_true, decide_eq_true_eq] at hwf hfit hpres
        simp only [List.map_cons, List.nodup_cons] at hnd
        have hpath : snprintf_path PATH_MAX path d_name = child_path path e.1 := by
          rw [hname]; exact snprintf_path_eq path e.1 hfit.1.1
        have hrest : ∀ e' ∈ rest, ∀ st', clear_of (child_path path e'.1) st' →
            e'.2.stat.is_dir = true → recurse (child_path path e'.1) st'
              = some (st' ++ e'.2.items (child_path path e'.1) (depth + 1)) :=
          fun e' he' => hrec e' (by simp [he'])
        simp only [scan_entries, hdot, hpath, hpres.1.1, Bool.or_true, Bool.and_true]
        rw [itemsL_cons]
        by_cases hdir : e.2.stat.is_dir = true
        · have hr := hrec e (by simp) st (hclear e (by simp)) hdir
          simp only [hdir, if_true, hr]
          have hclear' : ∀ e' ∈ rest, clear_of (child_path path e'.1)
              (st ++ e.2.items (child_path path e.1) (depth + 1)) := by
            intro e' he'
            apply clear_of_append (hclear e' (by simp [he']))
            intro it hit q hq hin
            obtain ⟨q', hq', hin'⟩ := items_inside e.2 (child_path path e.1) (depth + 1) it hit
            rw [hq] at hq'
            cases hq'
            have hv := (wfL_mem hwf.2 e' he').1
            have := inside_children_eq path e.1 e'.1 q (valid_name_no_slash _ hwf.1.1)
              (valid_name_no_slash _ hv) hin' hin
            exact hnd.1 (by rw [this]; exact List.mem_map_of_mem _ he')
          rw [ih rest _ _ hn hwf.2 hnd.2 hfit.2 hpres.2 hclear' hrest]
          simp [entries_size, add_assoc]
        · have hfile : e.2.items (child_path path e.1) (depth + 1) = [] := by
            cases h2 : e.2 with
            | file s => simp [FTree.items]
            | dir s ces => simp [h2, FTree.stat] at hdir
          simp only [hdir, Bool.false_eq_true, if_false, hfile, List.nil_append]
          rw [ih rest _ _ hn hwf.2 hnd.2 hfit.2 hpres.2
            (fun e' he' => hclear e' (by simp [he'])) hrest]
          simp [entries_size, add_assoc]

theorem iterate_subdirs_tree (fs : FileSys) :
    ∀ (fuel : Nat) (path : String) (depth : Int) (s : Int) (es : List (String × FTree))
      (st : Store),
      (FTree.dir s es).height ≤ fuel → (FTree.dir s es).wf = true →
      (FTree.dir s es).fits path = true → presents fs path (.dir s es) = true →
      clear_of path st → 0 ≤ depth → depth + (FTree.dir s es).height ≤ 32768 →
      iterate_subdirs fs fuel path true true depth st
        = some (st ++ (FTree.dir s es).items path depth, entries_size es) := by
  intro fuel
  induction fuel with
  | zero =>
    intro path depth s es st hh
    simp [FTree.height] at hh
  | succ n ih =>
    intro path depth s es st hh hwf hfit hpres hclear hd0 hd1
    simp only [FTree.height] at hh hd1
    simp only [FTree.wf, Bool.and_eq_true, decide_eq_true_eq] at hwf
    simp only [FTree.fits] at hfit
    simp only [presents, Bool.and_eq_true] at hpres
    obtain ⟨hopen, hpresL⟩ := hpres
    cases hop : fs.opendir path with
    | enoent => simp [hop] at hopen
    | eother => simp [hop] at hopen
    | ok names =>
      simp only [hop, decide_eq_true_eq] at hopen
      have hshort : to_short depth = depth := to_short_eq depth hd0 (by omega)
      have hnamed : names_item path ⟨some path, depth, 0, 0⟩ = true :=
        (names_item_iff _ _).2 rfl
      have hdepth : (if depth = 0 then get_dir_depth (st ++ [⟨some path, depth, 0, 0⟩]) path
          else depth) = depth := by
        split
        · rw [get_dir_depth_append st _ [] path (clear_of_not_named hclear) hnamed]
        · rfl
      have hself : clear_of path st → ∀ e ∈ es,
          clear_of (child_path path e.1) (st ++ [⟨some path, depth, 0, 0⟩]) := by
        intro _ e _
        apply clear_of_append (clear_of_child e.1 hclear)
        intro it hit q hq
        simp only [List.mem_singleton] at hit
        subst hit
        cases hq
        exact not_inside_child_self path e.1
      have hloop := scan_entries_tree fs
        (fun p s => (iterate_subdirs fs n p true true (depth + 1) s).map Prod.fst)
        path depth names es (st ++ [⟨some path, depth, 0, 0⟩]) 0 hopen hwf.1 hwf.2 hfit hpresL
        (hself hclear) (by
          intro e he st' hc hdir
          cases h2 : e.2 with
          | file s' => simp [h2, FTree.stat] at hdir
          | dir s' ces =>
            have hle := heightL_mem e he
            have hw := (wfL_mem hwf.1 e he).2
            have hf := (fitsL_mem hfit e he).2
            have hp := (presentsL_mem hpresL e he).2
            rw [h2] at hle hw hf hp
            simp only []
            rw [ih (child_path path e.1) (depth + 1) s' ces st' (by omega) hw hf hp hc
              (by omega) (by omega)]
            rfl)
      simp only [iterate_subdirs, add_dir_item, hshort, if_true, hop, hdepth, hloop]
      rw [List.append_assoc, List.singleton_append,
        update_dir_item_append st _ _ path _ (clear_of_not_named hclear) hnamed]
      simp [ENOENT, FTree.items]

theorem qsort_insert_perm {α : Type} (cmp : α → α → Int) (x : α) (l : List α) :
    (qsort_insert cmp x l).Perm (x :: l) := by
  induction l with
  | nil => simp [qsort_insert]
  | cons y ys ih =>
    simp only [qsort_insert]
    split
    · exact List.Perm.refl _
    · exact ((List.Perm.cons y ih).trans (List.Perm.swap x y ys))

theorem qsort_perm {α : Type} (cmp : α → α → Int) (l : List α) : (qsort cmp l).Perm l := by
  induction l with
  | nil => simp [qsort]
  | cons x xs ih =>
    simp only [qsort]
    exact (qsort_insert_perm cmp x _).trans (List.Perm.cons x ih)

theorem get_total_size_perm {a b : Store} (h : a.Perm b) :
    get_total_size a = get_total_size b := by
  induction h with
  | nil => rfl
  | cons x _ ih => simp [get_total_size, ih]
  | swap x y l => simp only [get_total_size]; omega
  | trans _ _ ih1 ih2 => exact ih1.trans ih2

mutual
theorem get_total_size_items : ∀ (t : FTree) (path : String) (depth : Int),
    get_total_size (t.items path depth) = t.size_below
  | .file _, _, _ => by simp [FTree.items, FTree.size_below, get_total_size]
  | .dir _ es, path, depth => by
    have := get_total_size_itemsL es path depth
    simp only [FTree.items, FTree.size_below, get_total_size, Option.isSome_some, if_true]
    omega
theorem get_total_size_itemsL : ∀ (es : List (String × FTree)) (path : String) (depth : Int),
    entries_size es + get_total_size (FTree.itemsL path depth es) = FTree.size_belowL es
  | [], _, _ => by simp [FTree.itemsL, FTree.size_belowL, get_total_size, entries_size]
  | e :: rest, path, depth => by
    have h1 := get_total_size_items e.2 (child_path path e.1) (depth + 1)
    have h2 := get_total_size_itemsL rest path depth
    rw [itemsL_cons, get_total_size_append]
    simp only [FTree.size_belowL, entries_size]
    omega
end

mutual
theorem height_fits : ∀ (t : FTree) (path : String), t.fits path = true →
    path.length < PATH_MAX → t.height + path.length ≤ PATH_MAX
  | .file _, _, _, h => by simp only [FTree.height]; omega
  | .dir _ es, path, hf, h => by
    simp only [FTree.fits] at hf
    have := heightL_fits es path hf
    simp only [FTree.height]
    omega
theorem heightL_fits : ∀ (es : List (String × FTree)) (path : String),
    FTree.fitsL path es = true →
    FTree.heightL es + path.length + 1 ≤ PATH_MAX ∨ FTree.heightL es = 0
  | [], _, _ => by simp [FTree.heightL]
  | e :: rest, path, hf => by
    rw [fitsL_cons] at hf
    simp only [Bool.and_eq_true, decide_eq_true_eq] at hf
    have h1 := height_fits e.2 (child_path path e.1) hf.1.2 hf.1.1
    have h2 := heightL_fits rest path hf.2
    have hlen : path.length + 1 ≤ (child_path path e.1).length := by
      show path.data.length + 1 ≤ (path.data ++ '/' :: e.1.data).length
      simp
    simp only [FTree.heightL]
    rcases h2 with h2 | h2
    · left
      rcases Nat.le_total (FTree.height e.2) (FTree.heightL rest) with h | h
      · rw [max_eq_right h]; exact h2
      · rw [max_eq_left h]; omega
    · left
      rw [h2, Nat.max_zero]
      omega
end

/-- C1. A full scan of a directory tree from the empty store: when the file system
shows the well-formed tree `dir s es` at `root`, every path fits in PATH_MAX bytes and
the recursion budget covers the height of the tree, then `scan_directory(root, 1, 1, 0)`
returns, the store it leaves is a rearrangement of `FTree.items root 0` (one entry
per directory, the root included, its depth the distance from the root, its size the
sum of the reported sizes of the entries directly inside it), and `get_total_size`
is the sum of the reported sizes of every entry strictly below the root. -/
theorem scan_directory_full (fs : FileSys) (root : String) (s : Int)
    (es : List (String × FTree)) (fuel : Nat)
    (hwf : (FTree.dir s es).wf = true) (hfit : (FTree.dir s es).fits root = true)
    (hpres : presents fs root (.dir s es) = true) (hfuel : (FTree.dir s es).height ≤ fuel) :
    ∃ st, scan_directory fs fuel root true true 0 [] = some st ∧
      st.Perm ((FTree.dir s es).items root 0) ∧
      get_total_size st = (FTree.dir s es).size_below := by
  have hh : (FTree.dir s es).height ≤ PATH_MAX := by
    have := heightL_fits es root (by simpa [FTree.fits] using hfit)
    simp only [FTree.height, PATH_MAX] at this ⊢
    omega
  have hrun := iterate_subdirs_tree fs fuel root 0 s es [] hfuel hwf hfit hpres
    (by intro it hit; simp at hit) (le_refl 0) (by simp only [PATH_MAX] at hh; omega)
  refine ⟨qsort compare_dir_items ((FTree.dir s es).items root 0), ?_, qsort_perm _ _, ?_⟩
  · simp [scan_directory, hrun]
  · rw [get_total_size_perm (qsort_perm _ _), get_total_size_items]

theorem scan_directory_full_witness :
    ((scenario_tree.wf = true ∧ scenario_tree.fits "/w" = true ∧
      presents (tree_fs "/w" scenario_tree) "/w" scenario_tree = true ∧
      scenario_tree.height ≤ 2) ∧
     ∃ st, scan_directory (tree_fs "/w" scenario_tree) 2 "/w" true true 0 [] = some st ∧
      st.Perm (scenario_tree.items "/w" 0) ∧ get_total_size st = scenario_tree.size_below) ∧
    scenario_tree.items "/w" 0 = [⟨some "/w", 0, 0, 100⟩, ⟨some "/w/sub", 1, 0, 50⟩] ∧
    scenario_tree.size_below = 150 :=
  ⟨⟨⟨by decide, by decide, by decide, by decide⟩,
    scan_directory_full (tree_fs "/w" scenario_tree) "/w" 0
      [("a.txt", .file 100), ("sub", .dir 0 [("b.txt", .file 50)])] 2
      (by decide) (by decide) (by decide) (by decide)⟩, by decide, by decide⟩

/-- The later steps of the scenario, each a diff (or, at the end, a notification)
on the store that the step before left: `b.txt` deleted and `/w/sub` diffed;
`/w/sub` deleted and `/w` diffed; `/w/newdir/c.txt` of 30 bytes created and `/w`
diffed; the flag RootChanged with `/w` gone. -/
theorem scenario_steps :
    check_children_of_dir (tree_fs "/w" (.dir 0 [("a.txt", .file 100), ("sub", .dir 0 [])])) 2
        [⟨some "/w", 0, 0, 100⟩, ⟨some "/w/sub", 1, 0, 50⟩] "/w/sub"
      = some ([⟨some "/w", 0, 0, 100⟩, ⟨some "/w/sub", 1, 0, 0⟩], 0) ∧
    check_children_of_dir (tree_fs "/w" (.dir 0 [("a.txt", .file 100)])) 2
        [⟨some "/w", 0, 0, 100⟩, ⟨some "/w/sub", 1, 0, 0⟩] "/w"
      = some ([⟨some "/w", 0, 0, 100⟩], 0) ∧
    check_children_of_dir
        (tree_fs "/w" (.dir 0 [("a.txt", .file 100), ("newdir", .dir 0 [("c.txt", .file 30)])]))
        2 [⟨some "/w", 0, 0, 100⟩] "/w"
      = some ([⟨some "/w", 0, 0, 100⟩, ⟨some "/w/newdir", 1, 0, 30⟩], 0) ∧
    get_total_size [⟨some "/w", 0, 0, 100⟩, ⟨some "/w/newdir", 1, 0, 30⟩] = 130 ∧
    fsevents_callback (tree_fs "/elsewhere" (.dir 0 [])) 2 "/w"
        [("/w", kFSEventStreamEventFlagRootChanged)]
        [⟨some "/w", 0, 0, 100⟩, ⟨some "/w/newdir", 1, 0, 30⟩]
      = some [] := by
  decide

/-! ## Removal -/

theorem drop_find_dir_item (st : Store) (name : String)
    (h : ∃ it ∈ st, it.dirname = some name) :
    ∃ it rest, st.drop (find_dir_item st name) = it :: rest := by
  induction st with
  | nil => simp at h
  | cons x xs ih =>
    by_cases hx : names_item name x = true
    · exact ⟨x, xs, by simp [find_dir_item, hx]⟩
    · obtain ⟨it, hit, hn⟩ := h
      rcases List.mem_cons.1 hit with rfl | hit
      · exact absurd ((names_item_iff name it).2 hn) hx
      · obtain ⟨y, rest, hd⟩ := ih ⟨it, hit, hn⟩
        exact ⟨y, rest, by simp [find_dir_item, hx, hd]⟩

/-- C3. What `remove_dir_and_children` does when `name` has a live entry: its second
loop starts at the entry found, whose depth is `start_depth`, and so stops before it
removes anything; the routine returns 0 and the store is the one that
`cleanup_dir_items` alone gives, the entry called `name` still in it. -/
theorem remove_dir_and_children_removes_nothing (st : Store) (name : String)
    (h : ∃ it ∈ st, it.dirname = some name) :
    remove_dir_and_children st name = (cleanup_dir_items st, 0) := by
  obtain ⟨it, rest, hd⟩ := drop_find_dir_item st name h
  unfold remove_dir_and_children
  rw [hd]
  simp only [remove_loop, le_refl, if_true]
  rw [← hd, List.take_append_drop]

theorem remove_dir_and_children_removes_nothing_witness :
    (∃ it ∈ [(⟨some "/w", 0, 0, 100⟩ : dir_item), ⟨some "/w/sub", 1, 0, 50⟩],
      it.dirname = some "/w") ∧
    remove_dir_and_children [⟨some "/w", 0, 0, 100⟩, ⟨some "/w/sub", 1, 0, 50⟩] "/w"
      = (cleanup_dir_items [⟨some "/w", 0, 0, 100⟩, ⟨some "/w/sub", 1, 0, 50⟩], 0) ∧
    cleanup_dir_items [⟨some "/w", 0, 0, 100⟩, ⟨some "/w/sub", 1, 0, 50⟩]
      = [⟨some "/w", 0, 0, 100⟩, ⟨some "/w/sub", 1, 0, 50⟩] :=
  ⟨⟨_, List.mem_cons_self _ _, rfl⟩,
   remove_dir_and_children_removes_nothing _ "/w" ⟨_, List.mem_cons_self _ _, rfl⟩,
   by decide⟩

/-! ## The differ on a tree with the sibling names `a` and `a.old` -/

/-- C2. A diff of `/r/a.old` after a file of 7 bytes was created in it, on the store
of a full scan of `sibling_tree`: the entry of `/r/a.old` gets size 7, but the entry
of `/r/a/b`, which sorts after `/r/a.old` and is deeper, is taken for a child of
`/r/a.old` that is gone and is removed, so the total is 7 where a full scan of the
new tree gives 17. -/
theorem diff_of_sibling_drops_entry :
    (scan_directory (tree_fs "/r" sibling_tree) 3 "/r" true true 0 []).bind
        (fun st => check_children_of_dir (tree_fs "/r" sibling_tree_file) 3 st "/r/a.old")
      = some ([⟨some "/r", 0, 0, 0⟩, ⟨some "/r/a", 1, 0, 0⟩, ⟨some "/r/a.old", 1, 0, 7⟩], 0) ∧
    get_total_size [⟨some "/r", 0, 0, 0⟩, ⟨some "/r/a", 1, 0, 0⟩, ⟨some "/r/a.old", 1, 0, 7⟩]
      = 7 ∧
    (scan_directory (tree_fs "/r" sibling_tree_file) 3 "/r" true true 0 []).map get_total_size
      = some 17 := by
  decide

/-- C4. A diff of `/r` after the directory `/r/a` was removed with all it holds, on
the store of a full scan of `sibling_tree`: the entry of `/r/a` is removed, but the
run of deeper entries after it is empty, `/r/a.old` coming next, so the entry of
`/r/a/b` stays live with its 10 bytes. -/
theorem diff_after_removal_keeps_descendant :
    (scan_directory (tree_fs "/r" sibling_tree) 3 "/r" true true 0 []).bind
        (fun st => check_children_of_dir (tree_fs "/r" sibling_tree_less) 3 st "/r")
      = some ([⟨some "/r", 0, 0, 0⟩, ⟨some "/r/a.old", 1, 0, 0⟩, ⟨some "/r/a/b", 2, 0, 10⟩],
          0) := by
  decide

/-- C5. A diff of `/r/a.old` after the directory `n` was created in it, on the store
of a full scan of `sibling_tree`: the entry of `/r/a.old/n` is added as a scan of it
at depth 2 gives it, but the entry of `/r/a/b` is removed. -/
theorem diff_with_new_child_drops_entry :
    scan_directory (tree_fs "/r" sibling_tree) 3 "/r" true true 0 []
      = some [⟨some "/r", 0, 0, 0⟩, ⟨some "/r/a", 1, 0, 0⟩, ⟨some "/r/a.old", 1, 0, 0⟩,
          ⟨some "/r/a/b", 2, 0, 10⟩] ∧
    scan_directory (tree_fs "/r" sibling_tree_more) 3 "/r/a.old/n" true true 2 []
      = some [⟨some "/r/a.old/n", 2, 0, 30⟩] ∧
    (scan_directory (tree_fs "/r" sibling_tree) 3 "/r" true true 0 []).bind
        (fun st => check_children_of_dir (tree_fs "/r" sibling_tree_more) 3 st "/r/a.old")
      = some ([⟨some "/r", 0, 0, 0⟩, ⟨some "/r/a", 1, 0, 0⟩, ⟨some "/r/a.old", 1, 0, 0⟩,
          ⟨some "/r/a.old/n", 2, 0, 30⟩], 0) := by
  decide

/-- C6. Two diffs of `/r/a` in a row on the store of a full scan of `sibling_tree`,
the tree unchanged: the window of `/r/a` ends at `/r/a.old`, so each diff takes
`/r/a/b` for a new directory and adds one more entry for it; the store has five
entries after the first diff and six after the second. -/
theorem diff_twice_adds_entries :
    (scan_directory (tree_fs "/r" sibling_tree) 3 "/r" true true 0 []).bind
        (fun st => check_children_of_dir (tree_fs "/r" sibling_tree) 3 st "/r/a")
      = some ([⟨some "/r", 0, 0, 0⟩, ⟨some "/r/a", 1, 0, 0⟩, ⟨some "/r/a.old", 1, 0, 0⟩,
          ⟨some "/r/a/b", 2, 0, 10⟩, ⟨some "/r/a/b", 2, 0, 0⟩], 0) ∧
    ((scan_directory (tree_fs "/r" sibling_tree) 3 "/r" true true 0 []).bind
        (fun st => check_children_of_dir (tree_fs "/r" sibling_tree) 3 st "/r/a")).bind
        (fun r => check_children_of_dir (tree_fs "/r" sibling_tree) 3 r.1 "/r/a")
      = some ([⟨some "/r", 0, 0, 0⟩, ⟨some "/r/a", 1, 0, 0⟩, ⟨some "/r/a.old", 1, 0, 0⟩,
          ⟨some "/r/a/b", 2, 0, 10⟩, ⟨some "/r/a/b", 2, 0, 0⟩, ⟨some "/r/a/b", 2, 0, 0⟩],
          0) := by
  decide

/-- C9. The store with one entry per directory of `sibling_tree` after
`cleanup_dir_items`: `/r/a.old` sorts between `/r/a` and `/r/a/b`, so the run of deeper
entries that follows `/r/a` (index 1) is empty although `/r/a/b` lies below `/r/a`, and
the run that follows `/r/a.old` (index 2) holds `/r/a/b`, which does not lie below it. -/
theorem cleanup_splits_subtree :
    cleanup_dir_items (sibling_tree.items "/r" 0)
      = [⟨some "/r", 0, 0, 0⟩, ⟨some "/r/a", 1, 0, 0⟩, ⟨some "/r/a.old", 1, 0, 0⟩,
          ⟨some "/r/a/b", 2, 0, 10⟩] ∧
    subtree_run (cleanup_dir_items (sibling_tree.items "/r" 0)) 1 = [] ∧
    (cleanup_dir_items (sibling_tree.items "/r" 0)).filter (is_below "/r/a")
      = [⟨some "/r/a/b", 2, 0, 10⟩] ∧
    subtree_run (cleanup_dir_items (sibling_tree.items "/r" 0)) 2
      = [⟨some "/r/a/b", 2, 0, 10⟩] ∧
    (cleanup_dir_items (sibling_tree.items "/r" 0)).filter (is_below "/r/a.old") = [] := by
  decide

/-! ## Persistence -/

/-- C7. Saving and loading a store that holds the path `/w/my dir`: the text has the
line `1 5 /w/my dir`, the conversion `%s` reads the path up to the blank, and the
next round fails on `dir`, so the store loaded has the entry `/w/my` in the place of
`/w/my dir` and nothing of what follows it in the text. -/
theorem load_after_save_cuts_path :
    save_dir_items [⟨some "/w", 0, 0, 7⟩, ⟨some "/w/my dir", 1, 0, 5⟩, ⟨some "/w/z", 1, 0, 3⟩]
      = "0 7 /w\n1 5 /w/my dir\n1 3 /w/z\n".data ∧
    load_dir_items (save_dir_items
        [⟨some "/w", 0, 0, 7⟩, ⟨some "/w/my dir", 1, 0, 5⟩, ⟨some "/w/z", 1, 0, 3⟩]) []
      = [⟨some "/w", 0, 0, 7⟩, ⟨some "/w/my", 1, 0, 5⟩] := by
  decide

/-! ## The dispatcher -/

/-- C8. The initial scan of the scenario tree followed by one notification for `/w`
with the flag MustScanSubDirs: `remove_dir_and_children` removes nothing, the scan
appends an entry for every directory again, and the store ends with two live entries
called `/w` and two called `/w/sub`. -/
theorem rescan_duplicates_paths :
    (scan_directory (tree_fs "/w" scenario_tree) 2 "/w" true true 0 []).bind
        (fsevents_callback (tree_fs "/w" scenario_tree) 2 "/w"
          [("/w", kFSEventStreamEventFlagMustScanSubDirs)])
      = some [⟨some "/w", 0, 0, 100⟩, ⟨some "/w", 0, 0, 0⟩, ⟨some "/w/sub", 1, 0, 50⟩,
          ⟨some "/w/sub", 1, 0, 0⟩] ∧
    ¬ ([(⟨some "/w", 0, 0, 100⟩ : dir_item), ⟨some "/w", 0, 0, 0⟩, ⟨some "/w/sub", 1, 0, 50⟩,
          ⟨some "/w/sub", 1, 0, 0⟩].map (fun it => it.dirname)).Nodup := by
  decide

/-- C10. A notification for `/w` with the flag RootChanged, the root present, handled
on the store of an earlier scan of the same tree: the old entries are not discarded
and the store ends with four entries, where `scan_directory(root, 1, 1, 0)` from the
empty store gives two. -/
theorem root_changed_keeps_old_entries :
    scan_directory (tree_fs "/w" scenario_tree) 2 "/w" true true 0 []
      = some [⟨some "/w", 0, 0, 100⟩, ⟨some "/w/sub", 1, 0, 50⟩] ∧
    fsevents_callback (tree_fs "/w" scenario_tree) 2 "/w"
        [("/w", kFSEventStreamEventFlagRootChanged)]
        [⟨some "/w", 0, 0, 100⟩, ⟨some "/w/sub", 1, 0, 50⟩]
      = some [⟨some "/w", 0, 0, 100⟩, ⟨some "/w", 0, 0, 0⟩, ⟨some "/w/sub", 1, 0, 50⟩,
          ⟨some "/w/sub", 1, 0, 0⟩] := by
  decide

/-- C11. A notification with the flag MustScanSubDirs and neither HistoryDone nor
RootChanged, the watch root fitting its buffer of PATH_MAX bytes: the flag tests
decide for a recursive update, and the round hands one and the same path to
`remove_dir_and_children` and to `scan_directory(path, 1, 1, 0)`: the watch root when
the flags hold UserDropped or KernelDropped, the reported path with a trailing
slash chopped off otherwise. -/
theorem must_scan_subdirs_target (fs : FileSys) (fuel : Nat) (full_path path : String)
    (flags : Nat) (st : Store) (hroot : full_path.length < PATH_MAX)
    (hm : flags &&& kFSEventStreamEventFlagMustScanSubDirs ≠ 0)
    (hh : flags &&& kFSEventStreamEventFlagHistoryDone = 0)
    (hr : flags &&& kFSEventStreamEventFlagRootChanged = 0) :
    classify fs full_path path flags
      = .update true
          (if flags &&& kFSEventStreamEventFlagUserDropped ≠ 0
              ∨ flags &&& kFSEventStreamEventFlagKernelDropped ≠ 0
            then full_path else chop_slash path) ∧
    fsevents_event fs fuel full_path path flags st
      = scan_directory fs fuel
          (if flags &&& kFSEventStreamEventFlagUserDropped ≠ 0
              ∨ flags &&& kFSEventStreamEventFlagKernelDropped ≠ 0
            then full_path else chop_slash path) true true 0
          (remove_dir_and_children st
            (if flags &&& kFSEventStreamEventFlagUserDropped ≠ 0
                ∨ flags &&& kFSEventStreamEventFlagKernelDropped ≠ 0
              then full_path else chop_slash path)).1 := by
  have hcopy : strlcpy_path full_path = full_path := by
    have h2 : full_path.data.length < PATH_MAX := hroot
    unfold strlcpy_path
    rw [List.take_of_length_le (Nat.le_sub_one_of_lt h2)]
  have hc : classify fs full_path path flags
      = .update true
          (if flags &&& kFSEventStreamEventFlagUserDropped ≠ 0
              ∨ flags &&& kFSEventStreamEventFlagKernelDropped ≠ 0
            then full_path else chop_slash path) := by
    unfold classify
    rw [if_neg (by simp [hh]), if_neg (by simp [hr]), if_pos hm, hcopy]
    by_cases hu : flags &&& kFSEventStreamEventFlagUserDropped ≠ 0
    · rw [if_pos hu, if_pos (Or.inl hu)]
    · by_cases hk : flags &&& kFSEventStreamEventFlagKernelDropped ≠ 0
      · rw [if_neg hu, if_pos hk, if_pos (Or.inr hk)]
      · rw [if_neg hu, if_neg hk, if_neg (by tauto)]
  refine ⟨hc, ?_⟩
  unfold fsevents_event
  rw [hc]

theorem must_scan_subdirs_target_witness :
    ("/w".length < PATH_MAX ∧
      kFSEventStreamEventFlagMustScanSubDirs &&& kFSEventStreamEventFlagMustScanSubDirs ≠ 0 ∧
      kFSEventStreamEventFlagMustScanSubDirs &&& kFSEventStreamEventFlagHistoryDone = 0 ∧
      kFSEventStreamEventFlagMustScanSubDirs &&& kFSEventStreamEventFlagRootChanged = 0) ∧
    (classify (tree_fs "/w" scenario_tree) "/w" "/w/sub/" kFSEventStreamEventFlagMustScanSubDirs
      = .update true
          (if kFSEventStreamEventFlagMustScanSubDirs &&& kFSEventStreamEventFlagUserDropped ≠ 0
              ∨ kFSEventStreamEventFlagMustScanSubDirs &&& kFSEventStreamEventFlagKernelDropped
                ≠ 0
            then "/w" else chop_slash "/w/sub/") ∧
     fsevents_event (tree_fs "/w" scenario_tree) 2 "/w" "/w/sub/"
        kFSEventStreamEventFlagMustScanSubDirs []
      = scan_directory (tree_fs "/w" scenario_tree) 2
          (if kFSEventStreamEventFlagMustScanSubDirs &&& kFSEventStreamEventFlagUserDropped ≠ 0
              ∨ kFSEventStreamEventFlagMustScanSubDirs &&& kFSEventStreamEventFlagKernelDropped
                ≠ 0
            then "/w" else chop_slash "/w/sub/") true true 0
          (remove_dir_and_children []
            (if kFSEventStreamEventFlagMustScanSubDirs &&& kFSEventStreamEventFlagUserDropped
                  ≠ 0
                ∨ kFSEventStreamEventFlagMustScanSubDirs
                  &&& kFSEventStreamEventFlagKernelDropped ≠ 0
              then "/w" else chop_slash "/w/sub/")).1) ∧
    chop_slash "/w/sub/" = "/w/sub" :=
  ⟨⟨by decide, by decide, by decide, by decide⟩,
   must_scan_subdirs_target (tree_fs "/w" scenario_tree) 2 "/w" "/w/sub/"
     kFSEventStreamEventFlagMustScanSubDirs [] (by decide) (by decide) (by decide) (by decide),
   by decide⟩

/-- C12. A notification with the flag RootChanged and without HistoryDone while
`stat` of the watch root fails: whatever the other flags, the reported path and the
recursion budget, the flag tests decide to throw the state away, no scan and no
diff is run, and the round leaves the empty store, whose total size is 0. -/
theorem root_changed_root_missing (fs : FileSys) (fuel : Nat) (full_path path : String)
    (flags : Nat) (st : Store)
    (hr : flags &&& kFSEventStreamEventFlagRootChanged ≠ 0)
    (hh : flags &&& kFSEventStreamEventFlagHistoryDone = 0)
    (hmiss : fs.stat full_path = none) :
    classify fs full_path path flags = .discard ∧
    fsevents_event fs fuel full_path path flags st = some [] ∧
    (fsevents_event fs fuel full_path path flags st).map get_total_size = some 0 := by
  have hc : classify fs full_path path flags = .discard := by
    unfold classify
    rw [if_neg (by simp [hh]), if_pos hr, hmiss]
  have he : fsevents_event fs fuel full_path path flags st = some [] := by
    unfold fsevents_event
    rw [hc]
    rfl
  exact ⟨hc, he, by rw [he]; rfl⟩

theorem root_changed_root_missing_witness :
    (0x23 &&& kFSEventStreamEventFlagRootChanged ≠ 0 ∧
      0x23 &&& kFSEventStreamEventFlagHistoryDone = 0 ∧
      (tree_fs "/elsewhere" (.dir 0 [])).stat "/w" = none) ∧
    classify (tree_fs "/elsewhere" (.dir 0 [])) "/w" "/w/sub" 0x23 = .discard ∧
    fsevents_event (tree_fs "/elsewhere" (.dir 0 [])) 0 "/w" "/w/sub" 0x23
        [⟨some "/w", 0, 0, 100⟩, ⟨some "/w/sub", 1, 0, 50⟩] = some [] ∧
    (fsevents_event (tree_fs "/elsewhere" (.dir 0 [])) 0 "/w" "/w/sub" 0x23
        [⟨some "/w", 0, 0, 100⟩, ⟨some "/w/sub", 1, 0, 50⟩]).map get_total_size = some 0 :=
  ⟨⟨by decide, by decide, by decide⟩,
   root_changed_root_missing (tree_fs "/elsewhere" (.dir 0 [])) 0 "/w" "/w/sub" 0x23
     [⟨some "/w", 0, 0, 100⟩, ⟨some "/w/sub", 1, 0, 50⟩] (by decide) (by decide) (by decide)⟩

/-! ## The scanner on a directory that cannot be opened -/

/-- The scanner on `/w/locked`, which has an entry of size 100 and cannot be opened:
with the register-self argument the store grows by one entry, without it the store
is unchanged, and in both cases the value returned is -1, not 100. -/
theorem open_failure_counterexample :
    iterate_subdirs locked_fs 1 "/w/locked" true true 1
        [⟨some "/w", 0, 0, 0⟩, ⟨some "/w/locked", 1, 0, 100⟩]
      = some ([⟨some "/w", 0, 0, 0⟩, ⟨some "/w/locked", 1, 0, 100⟩,
          ⟨some "/w/locked", 1, 0, 0⟩], -1) ∧
    ([⟨some "/w", 0, 0, 0⟩, ⟨some "/w/locked", 1, 0, 100⟩, ⟨some "/w/locked", 1, 0, 0⟩] :
        Store)
      ≠ [⟨some "/w", 0, 0, 0⟩, ⟨some "/w/locked", 1, 0, 100⟩] ∧
    iterate_subdirs locked_fs 1 "/w/locked" false true 1
        [⟨some "/w", 0, 0, 0⟩, ⟨some "/w/locked", 1, 0, 100⟩]
      = some ([⟨some "/w", 0, 0, 0⟩, ⟨some "/w/locked", 1, 0, 100⟩], -1) ∧
    (-1 : Int) ≠ 100 := by
  decide

/-- C13, amended. When `opendir` of the directory fails with an error other than
ENOENT, the scanner (with a positive recursion budget, whatever the other arguments)
returns -1; no entry of the store is removed or resized; without the register-self
argument the store is unchanged, with it exactly one entry is appended, for the path
of the directory with size 0 and the depth argument; `get_total_size` is the same
before and after. -/
theorem iterate_subdirs_open_failure (fs : FileSys) (fuel : Nat) (dirname : String)
    (add recursive : Bool) (depth : Int) (st : Store)
    (hopen : fs.opendir dirname = .eother) :
    iterate_subdirs fs (fuel + 1) dirname add recursive depth st
      = some (if add then st ++ [⟨some dirname, to_short depth, 0, 0⟩] else st, -1) ∧
    get_total_size (if add then st ++ [⟨some dirname, to_short depth, 0, 0⟩] else st)
      = get_total_size st := by
  constructor
  · simp only [iterate_subdirs, hopen, add_dir_item]
  · cases add
    · simp
    · simp [get_total_size_append, get_total_size]

theorem iterate_subdirs_open_failure_witness :
    locked_fs.opendir "/w/locked" = .eother ∧
    iterate_subdirs locked_fs 1 "/w/locked" true true 1
        [⟨some "/w", 0, 0, 0⟩, ⟨some "/w/locked", 1, 0, 100⟩]
      = some ([⟨some "/w", 0, 0, 0⟩, ⟨some "/w/locked", 1, 0, 100⟩]
          ++ [⟨some "/w/locked", to_short 1, 0, 0⟩], -1) ∧
    get_total_size ([⟨some "/w", 0, 0, 0⟩, ⟨some "/w/locked", 1, 0, 100⟩]
          ++ [⟨some "/w/locked", to_short 1, 0, 0⟩])
      = get_total_size [⟨some "/w", 0, 0, 0⟩, ⟨some "/w/locked", 1, 0, 100⟩] :=
  ⟨rfl, iterate_subdirs_open_failure locked_fs 0 "/w/locked" true true 1
    [⟨some "/w", 0, 0, 0⟩, ⟨some "/w/locked", 1, 0, 100⟩] rfl⟩

/-! ## Depths after a rescan below the root -/

/-- C15. The initial scan of the scenario tree followed by one notification for
`/w/sub` with the flag MustScanSubDirs: the scanner stores the depth argument 0 in the
entry it appends for `/w/sub` before `get_dir_depth` is asked, so the store ends with
a live entry for `/w/sub` of depth 0, one component below the root. The same depth 0
is stored when `/w/sub` had no entry before (the initial scan ran on a root that held
only `a.txt`). -/
theorem rescan_below_root_stores_depth_zero :
    (scan_directory (tree_fs "/w" scenario_tree) 2 "/w" true true 0 []).bind
        (fsevents_callback (tree_fs "/w" scenario_tree) 2 "/w"
          [("/w/sub", kFSEventStreamEventFlagMustScanSubDirs)])
      = some [⟨some "/w", 0, 0, 100⟩, ⟨some "/w/sub", 1, 0, 50⟩, ⟨some "/w/sub", 0, 0, 0⟩] ∧
    (scan_directory (tree_fs "/w" (.dir 0 [("a.txt", .file 100)])) 2 "/w" true true 0 []).bind
        (fsevents_callback (tree_fs "/w" scenario_tree) 2 "/w"
          [("/w/sub", kFSEventStreamEventFlagMustScanSubDirs)])
      = some [⟨some "/w", 0, 0, 100⟩, ⟨some "/w/sub", 0, 0, 50⟩] ∧
    extra_components "/w" "/w/sub" = 1 ∧ extra_components "/w" "/w" = 0 := by
  decide

/-! ## Compaction -/

theorem char_toNat_ne {a b : Char} (h : a ≠ b) : a.toNat ≠ b.toNat := by
  intro hn
  apply h
  apply Char.ext
  exact UInt32.toNat.inj hn

theorem strcmpL_swap : ∀ a b : List Char, strcmpL b a = - strcmpL a b
  | [], [] => by simp [strcmpL]
  | [], _ :: _ => by simp [strcmpL]
  | _ :: _, [] => by simp [strcmpL]
  | x :: as, y :: bs => by
    by_cases h : x = y
    · subst h
      simp [strcmpL, strcmpL_swap as bs]
    · have h2 : ¬ y = x := fun e => h e.symm
      have h3 := char_toNat_ne h
      simp only [strcmpL, h, h2, if_false]
      by_cases h4 : x.toNat < y.toNat
      · have h5 : ¬ y.toNat < x.toNat := by omega
        simp [h4, h5]
      · have h5 : y.toNat < x.toNat := by omega
        simp [h4, h5]

theorem strcmpL_le_trans : ∀ a b c : List Char,
    strcmpL a b ≤ 0 → strcmpL b c ≤ 0 → strcmpL a c ≤ 0
  | [], _, [], _, _ => by simp [strcmpL]
  | [], _, _ :: _, _, _ => by simp [strcmpL]
  | _ :: _, [], _, h, _ => by simp [strcmpL] at h
  | _ :: _, _ :: _, [], _, h => by simp [strcmpL] at h
  | x :: as, y :: bs, z :: cs, h1, h2 => by
    simp only [strcmpL] at h1 h2 ⊢
    by_cases hxy : x = y
    · subst hxy
      simp only [if_true] at h1
      by_cases hxz : x = z
      · subst hxz
        simp only [if_true] at h2 ⊢
        exact strcmpL_le_trans as bs cs h1 h2
      · simpa [hxz] using h2
    · simp only [hxy, if_false] at h1
      have hlt : x.toNat < y.toNat := by
        by_contra hc
        simp [hc] at h1
      by_cases hyz : y = z
      · subst hyz
        simp [hxy, hlt]
      · simp only [hyz, if_false] at h2
        have hlt2 : y.toNat < z.toNat := by
          by_contra hc
          simp [hc] at h2
        have hxz : x ≠ z := by
          intro e
          subst e
          omega
        have hlt3 : x.toNat < z.toNat := by omega
        simp [hxz, hlt3]

theorem compare_dir_items_total (a b : dir_item) (h : ¬ compare_dir_items a b ≤ 0) :
    compare_dir_items b a ≤ 0 := by
  unfold compare_dir_items at h ⊢
  cases ha : a.dirname <;> cases hb : b.dirname <;> simp_all [strcmp]
  rename_i x y
  rw [strcmpL_swap x.data y.data]
  omega

theorem compare_dir_items_trans (a b c : dir_item) (h1 : compare_dir_items a b ≤ 0)
    (h2 : compare_dir_items b c ≤ 0) : compare_dir_items a c ≤ 0 := by
  unfold compare_dir_items at h1 h2 ⊢
  cases ha : a.dirname <;> cases hb : b.dirname <;> cases hc : c.dirname <;>
    simp_all [strcmp]
  rename_i x y z
  exact strcmpL_le_trans x.data y.data z.data h1 h2

theorem qsort_insert_sorted {α : Type} (cmp : α → α → Int)
    (htot : ∀ a b, ¬ cmp a b ≤ 0 → cmp b a ≤ 0)
    (htr : ∀ a b c, cmp a b ≤ 0 → cmp b c ≤ 0 → cmp a c ≤ 0) (x : α) (l : List α)
    (hl : l.Pairwise (fun a b => cmp a b ≤ 0)) :
    (qsort_insert cmp x l).Pairwise (fun a b => cmp a b ≤ 0) := by
  induction l with
  | nil => simp [qsort_insert]
  | cons y ys ih =>
    rw [List.pairwise_cons] at hl
    simp only [qsort_insert]
    split
    · rename_i hxy
      refine List.pairwise_cons.2 ⟨?_, List.pairwise_cons.2 hl⟩
      intro b hb
      rcases List.mem_cons.1 hb with rfl | hb
      · exact hxy
      · exact htr _ _ _ hxy (hl.1 b hb)
    · rename_i hxy
      refine List.pairwise_cons.2 ⟨?_, ih hl.2⟩
      intro b hb
      rcases List.mem_cons.1 ((qsort_insert_perm cmp x ys).mem_iff.1 hb) with rfl | hb
      · exact htot _ _ hxy
      · exact hl.1 b hb

theorem qsort_sorted {α : Type} (cmp : α → α → Int)
    (htot : ∀ a b, ¬ cmp a b ≤ 0 → cmp b a ≤ 0)
    (htr : ∀ a b c, cmp a b ≤ 0 → cmp b c ≤ 0 → cmp a c ≤ 0) (l : List α) :
    (qsort cmp l).Pairwise (fun a b => cmp a b ≤ 0) := by
  induction l with
  | nil => simp [qsort]
  | cons x xs ih => exact qsort_insert_sorted cmp htot htr x _ ih

theorem take_live_of_sorted (s : Store)
    (hs : s.Pairwise (fun a b => compare_dir_items a b ≤ 0)) :
    s.take (s.length - count_dead s) = s.filter is_live := by
  induction s with
  | nil => simp
  | cons a t ih =>
    rw [List.pairwise_cons] at hs
    have hle : count_dead t ≤ t.length := List.countP_le_length _
    cases ha : a.dirname with
    | some x =>
      have hc : count_dead (a :: t) = count_dead t := by
        simp [count_dead, List.countP_cons, ha]
      have hlen : (a :: t).length - count_dead (a :: t) = (t.length - count_dead t) + 1 := by
        rw [hc, List.length_cons]
        omega
      rw [hlen, List.take_succ_cons, ih hs.2]
      simp [is_live, ha]
    | none =>
      have hall : ∀ b ∈ t, b.dirname = none := by
        intro b hb
        have := hs.1 b hb
        cases hbd : b.dirname with
        | none => rfl
        | some y => simp [compare_dir_items, ha, hbd] at this
      have hc : count_dead (a :: t) = t.length + 1 := by
        have : count_dead t = t.length := by
          unfold count_dead
          rw [List.countP_eq_length]
          intro b hb
          simp [hall b hb]
        simp [count_dead, List.countP_cons, ha] at this ⊢
        exact this
      have hnil : t.filter is_live = [] := by
        rw [List.filter_eq_nil_iff]
        intro b hb
        simp [is_live, hall b hb]
      rw [hc]
      simp [is_live, ha, hnil]

theorem get_total_size_filter_live (s : Store) :
    get_total_size (s.filter is_live) = get_total_size s := by
  induction s with
  | nil => rfl
  | cons a t ih =>
    cases ha : a.dirname with
    | none => simp [List.filter_cons, is_live, ha, get_total_size, ih]
    | some x => simp [List.filter_cons, is_live, ha, get_total_size, ih]

theorem cleanup_dir_items_eq (st : Store) :
    cleanup_dir_items st = (qsort compare_dir_items st).filter is_live :=
  take_live_of_sorted _
    (qsort_sorted compare_dir_items compare_dir_items_total compare_dir_items_trans st)

/-- C14. Compaction of any store, live entries and tombstones in any order: after
`cleanup_dir_items` no entry is a tombstone, the paths are in non-decreasing order
by strcmp, the entries are a rearrangement of the entries that were live before,
and `get_total_size` is what it was before. -/
theorem cleanup_dir_items_compacts (st : Store) :
    (∀ it ∈ cleanup_dir_items st, it.dirname.isSome = true) ∧
    (cleanup_dir_items st).Pairwise path_le ∧
    (cleanup_dir_items st).Perm (st.filter is_live) ∧
    get_total_size (cleanup_dir_items st) = get_total_size st := by
  rw [cleanup_dir_items_eq]
  refine ⟨?_, ?_, ?_, ?_⟩
  · intro it hit
    exact (List.mem_filter.1 hit).2
  · have hs := qsort_sorted compare_dir_items compare_dir_items_total
      compare_dir_items_trans st
    refine (hs.sublist (List.filter_sublist _)).imp ?_
    intro a b hab x y hx hy
    simpa [compare_dir_items, hx, hy] using hab
  · exact (qsort_perm compare_dir_items st).filter _
  · rw [get_total_size_filter_live, get_total_size_perm (qsort_perm compare_dir_items st)]

end Watcher
